import Mathlib

/-!
Shallow embedding of `langdetect/detector_factory.py` (class `DetectorFactory`).

Python floats are modelled as rationals (ℚ); dicts preserving insertion order
are modelled as association lists; Python exceptions are modelled as an
explicit error component alongside the mutated state (`self` is mutated even
when a method raises, so every stateful operation returns the post-state
together with an optional error).
-/

/-- Error codes of `lang_detect_exception.ErrorCode` used by `detector_factory.py`. -/
inductive ErrorCode where
  | NeedLoadProfileError : ErrorCode
  | FormatError : ErrorCode
  | FileLoadError : ErrorCode
  | DuplicateLangError : ErrorCode
deriving DecidableEq, Repr

/-- Python exceptions raised by the code under study: `LangDetectException`
with a code, `ZeroDivisionError`, `IndexError`, and the bare `NameError`
raised by `get_best_timehash`. -/
inductive PyError where
  | langDetect : ErrorCode → PyError
  | zeroDivision : PyError
  | indexError : PyError
  | nameError : PyError
deriving DecidableEq, Repr

/-- `utils.lang_profile.LangProfile` as consumed by `add_profile`:
`name` (the language tag), `freq` (dict of n-gram → count, insertion order),
`n_words` (per-length totals list). -/
structure LangProfile where
  name : String
  freq : List (String × Nat)
  n_words : List Nat
deriving DecidableEq, Repr

/-- The word → probability-vector dict `word_lang_prob_map`. -/
abbrev WMap := List (String × List ℚ)

/-- Python `map[word]` lookup (dicts compare keys by equality; insertion order kept). -/
def mapLookup : WMap → String → Option (List ℚ)
  | [], _ => none
  | (k, v) :: rest, w => if k = w then some v else mapLookup rest w

/-- Python `map[word] = v` on a key already present: replace in place. -/
def mapSet : WMap → String → List ℚ → WMap
  | [], _, _ => []
  | (k, v) :: rest, w, nv => if k = w then (k, nv) :: rest else (k, v) :: mapSet rest w nv

/-- State of a `DetectorFactory` instance: `word_lang_prob_map` and `langlist`
(`__init__` starts both empty). -/
structure DetectorFactory where
  word_lang_prob_map : WMap
  langlist : List String
deriving DecidableEq, Repr

/-- `DetectorFactory.__init__`: empty map, empty language list. -/
def DetectorFactory.mkEmpty : DetectorFactory := ⟨[], []⟩

/-- The first two lines of the `add_profile` loop body:
    if word not in self.word_lang_prob_map:
        self.word_lang_prob_map[word] = [0.0] * langsize -/
def ensureWord (m : WMap) (w : String) (langsize : Nat) : WMap :=
  if (mapLookup m w).isNone then m ++ [(w, List.replicate langsize (0 : ℚ))] else m

/-- The statement `self.word_lang_prob_map[word][index] = prob`: look the
vector up and mutate position `index` in place; an out-of-range index raises
`IndexError`. -/
def storeProb (m : WMap) (w : String) (index : Nat) (prob : ℚ) : WMap × Option PyError :=
  match mapLookup m w with
  | none => (m, some PyError.indexError)
  | some v =>
    if index < v.length then (mapSet m w (v.set index prob), none)
    else (m, some PyError.indexError)

/-- One iteration of the `for word in profile.freq` loop of `add_profile`:
    if word not in self.word_lang_prob_map:
        self.word_lang_prob_map[word] = [0.0] * langsize
    length = len(word)
    if 1 <= length <= 3:
        prob = 1.0 * profile.freq.get(word) / profile.n_words[length - 1]
        self.word_lang_prob_map[word][index] = prob
Returns the map after the iteration together with the exception, if any, that
the iteration raises (`IndexError` from `n_words[length-1]` or from the vector
store, `ZeroDivisionError` from the division). -/
def addWord (map₀ : WMap) (word : String) (count : Nat) (n_words : List Nat)
    (index langsize : Nat) : WMap × Option PyError :=
  let map := ensureWord map₀ word langsize
  if 1 ≤ word.length ∧ word.length ≤ 3 then
    match n_words[word.length - 1]? with
    | none => (map, some PyError.indexError)
    | some d =>
      if d = 0 then (map, some PyError.zeroDivision)
      else storeProb map word index ((count : ℚ) / (d : ℚ))
  else (map, none)

/-- The whole `for word in profile.freq` loop; stops at the first exception,
keeping the partially mutated map. -/
def addWords (n_words : List Nat) (index langsize : Nat) :
    WMap → List (String × Nat) → WMap × Option PyError
  | map, [] => (map, none)
  | map, (w, c) :: rest =>
    match addWord map w c n_words index langsize with
    | (map', none) => addWords n_words index langsize map' rest
    | (map', some e) => (map', some e)

/-- `DetectorFactory.add_profile(profile, index, langsize)`.  Raises
`DuplicateLangError` when the language is already in `langlist` (before any
mutation); otherwise appends the language and runs the frequency loop.  The
post-state is returned even when the loop raises, since `self` was mutated. -/
def add_profile (f : DetectorFactory) (profile : LangProfile) (index langsize : Nat) :
    DetectorFactory × Option PyError :=
  if profile.name ∈ f.langlist then
    (f, some (PyError.langDetect ErrorCode.DuplicateLangError))
  else
    let res := addWords profile.n_words index langsize f.word_lang_prob_map profile.freq
    (⟨res.1, f.langlist ++ [profile.name]⟩, res.2)

/-- The loop of `load_json_profile`: each element is the result of
`json.loads` + `LangProfile(**json_data)` (`none` = unparsable input).  The
bare `except:` converts every exception out of the body — parse failures and
everything `add_profile` raises — into a `FormatError`, keeping the mutated
factory state. -/
def loadLoop (langsize : Nat) :
    DetectorFactory → Nat → List (Option LangProfile) → DetectorFactory × Option PyError
  | f, _, [] => (f, none)
  | f, _, none :: _ => (f, some (PyError.langDetect ErrorCode.FormatError))
  | f, index, some p :: rest =>
    match add_profile f p index langsize with
    | (f', none) => loadLoop langsize f' (index + 1) rest
    | (f', some _) => (f', some (PyError.langDetect ErrorCode.FormatError))

/-- `DetectorFactory.load_json_profile(json_profiles)`: `langsize` is the
number of inputs; fewer than 2 inputs raise `NeedLoadProfileError` up front. -/
def load_json_profile (f : DetectorFactory) (json_profiles : List (Option LangProfile)) :
    DetectorFactory × Option PyError :=
  if json_profiles.length < 2 then
    (f, some (PyError.langDetect ErrorCode.NeedLoadProfileError))
  else loadLoop json_profiles.length f 0 json_profiles

/-- A directory entry seen by `load_profile` (classic mode): its file name,
whether `path.isfile` holds, and the result of opening + `json.load` +
`LangProfile(**json_data)` (`none` = profile format error). -/
structure DirEntry where
  filename : String
  isfile : Bool
  parsed : Option LangProfile
deriving DecidableEq, Repr

/-- `filename.startswith('.')`: the first character is a dot. -/
def startsWithDot (s : String) : Bool :=
  match s.data with
  | [] => false
  | c :: _ => c = '.'

/-- The file loop of `load_profile`: entries whose name starts with `.` and
non-files are skipped without incrementing `index`; `langsize` stays the raw
listing length. -/
def loadFilesLoop (langsize : Nat) :
    DetectorFactory → Nat → List DirEntry → DetectorFactory × Option PyError
  | f, _, [] => (f, none)
  | f, index, e :: rest =>
    if startsWithDot e.filename then loadFilesLoop langsize f index rest
    else if e.isfile = false then loadFilesLoop langsize f index rest
    else
      match e.parsed with
      | none => (f, some (PyError.langDetect ErrorCode.FormatError))
      | some p =>
        match add_profile f p index langsize with
        | (f', none) => loadFilesLoop langsize f' (index + 1) rest
        | (f', some _) => (f', some (PyError.langDetect ErrorCode.FormatError))

/-- `DetectorFactory.load_profile(profile_directory)` in classic mode, over the
listing `list_files`: only an *empty* listing raises `NeedLoadProfileError`;
then `langsize = len(list_files)` and the file loop runs. -/
def load_profile (f : DetectorFactory) (list_files : List DirEntry) :
    DetectorFactory × Option PyError :=
  if list_files = [] then
    (f, some (PyError.langDetect ErrorCode.NeedLoadProfileError))
  else loadFilesLoop list_files.length f 0 list_files

/-- `sorted([int(x) for x in options], reverse=True)`: sorted in descending
order of the integer values. -/
def sortDesc (l : List Nat) : List Nat := List.insertionSort (· ≥ ·) l

/-- The scan of `get_best_timehash`: first element of the descending list that
does not exceed the current value; `NameError` when none qualifies. -/
def findTimehash (current : Nat) : List Nat → Except PyError Nat
  | [] => Except.error PyError.nameError
  | t :: ts => if t ≤ current then Except.ok t else findTimehash current ts

/-- `DetectorFactory.get_best_timehash(options)`, with the ambient
`datetime.now().strftime("%m%d%Y%H%M")` passed explicitly as the integer
`current_datetime`; the directory names are passed already converted by
`int(x)`.  Returns the chosen integer timestamp. -/
def get_best_timehash (current_datetime : Nat) (options : List Nat) : Except PyError Nat :=
  findTimehash current_datetime (sortDesc options)

/-- The re-padding applied to the returned value: one leading zero is restored
when `int()` stripped the string below 12 digits. -/
def formatTimehash (t : Nat) : String :=
  if (toString t).length < 12 then "0" ++ toString t else toString t

/-- `get_best_timehash` including the string formatting of the return value. -/
def get_best_timehash_str (current_datetime : Nat) (options : List Nat) : Except PyError String :=
  (get_best_timehash current_datetime options).map formatTimehash

/-- A wall-clock instant, for relating the `%m%d%Y%H%M` integer encoding used
by the code to chronological order. -/
structure Timestamp where
  month : Nat
  day : Nat
  year : Nat
  hour : Nat
  minute : Nat
deriving DecidableEq, Repr

/-- The `%m%d%Y%H%M` (MMDDYYYYHHMM) integer encoding used for comparison in
`get_best_timehash`. -/
def tsEncode (t : Timestamp) : Nat :=
  ((t.month * 100 + t.day) * 10000 + t.year) * 10000 + t.hour * 100 + t.minute

/-- Chronological key YYYYMMDDHHMM: larger iff the instant is later. -/
def tsChrono (t : Timestamp) : Nat :=
  (((t.year * 100 + t.month) * 100 + t.day) * 100 + t.hour) * 100 + t.minute

/-- `detector.Detector` is not under `src/`.  Modelled from the spec: the
Classifier refuses construction only via `NeedProfilesError` (raised by the
factory before construction); constructing the value itself always succeeds,
holding the factory it reads. -/
structure Detector where
  factory : DetectorFactory

/-- `DetectorFactory._create_detector`: empty `langlist` raises
`NeedLoadProfileError`, otherwise `Detector(self)` is returned. -/
def _create_detector (f : DetectorFactory) : Except PyError Detector :=
  if f.langlist = [] then Except.error (PyError.langDetect ErrorCode.NeedLoadProfileError)
  else Except.ok ⟨f⟩

/-- A heap of Python list objects holding `list[str]` values, for the aliasing
behaviour of `get_lang_list`: references are allocation indices. -/
structure PyListHeap where
  size : Nat
  store : Nat → List String

/-- Allocate a fresh list object with the given contents. -/
def PyListHeap.alloc (h : PyListHeap) (v : List String) : Nat × PyListHeap :=
  (h.size, ⟨h.size + 1, fun i => if i = h.size then v else h.store i⟩)

/-- In-place mutation of the list object behind reference `r`. -/
def PyListHeap.write (h : PyListHeap) (r : Nat) (v : List String) : PyListHeap :=
  ⟨h.size, fun i => if i = r then v else h.store i⟩

/-- `DetectorFactory.get_lang_list`: `return list(self.langlist)` — a fresh
list object copying the contents of the factory's `langlist` object at
reference `langlistRef`. -/
def get_lang_list (h : PyListHeap) (langlistRef : Nat) : Nat × PyListHeap :=
  h.alloc (h.store langlistRef)

/-! ### Concrete sample data (profiles, directory listings, timestamps) -/

/-- A small English-like profile: counts 2 and 3, totals 4 and 6. -/
def pEn : LangProfile := ⟨"en", [("a", 2), ("ab", 3)], [4, 6, 5]⟩

/-- A small French-like profile sharing the bigram "ab" with `pEn`. -/
def pFr : LangProfile := ⟨"fr", [("b", 1), ("ab", 2)], [2, 4, 0]⟩

/-- The probability `1.0 * count / total` as stored by `add_profile`, kept in
unreduced form. -/
def qdiv (c d : Nat) : ℚ := (c : ℚ) / (d : ℚ)

/-- The factory after `add_profile(pEn, 0, 2)` from the fresh state. -/
def fEnOnly : DetectorFactory :=
  ⟨[("a", [qdiv 2 4, 0]), ("ab", [qdiv 3 6, 0])], ["en"]⟩

/-- The factory after loading `pEn` then `pFr` (langsize 2) from the fresh state. -/
def fEnFr : DetectorFactory :=
  ⟨[("a", [qdiv 2 4, 0]), ("ab", [qdiv 3 6, qdiv 2 4]), ("b", [0, qdiv 1 2])],
   ["en", "fr"]⟩

/-- A hidden file in the profile directory: listed by `os.listdir`, skipped by
the loop, but still counted in `langsize`. -/
def dotEntry : DirEntry := ⟨".DS_Store", true, none⟩

def enEntry : DirEntry := ⟨"en.json", true, some pEn⟩

def frEntry : DirEntry := ⟨"fr.json", true, some pFr⟩

def tsJan2026 : Timestamp := ⟨1, 20, 2026, 0, 0⟩

def tsNov2025 : Timestamp := ⟨11, 20, 2025, 0, 0⟩

def tsDec2026 : Timestamp := ⟨12, 1, 2026, 12, 0⟩

/-- A one-object heap whose object 0 is the factory's `langlist`. -/
def hExample : PyListHeap := ⟨1, fun _ => ["en", "fr"]⟩

/-! ### Lemmas about the association-list dictionary -/

theorem mapLookup_mem {m : WMap} {w : String} {v : List ℚ}
    (h : mapLookup m w = some v) : (w, v) ∈ m := by
  induction m with
  | nil => simp [mapLookup] at h
  | cons q rest ih =>
    obtain ⟨k, u⟩ := q
    by_cases hk : k = w
    · subst hk
      simp [mapLookup] at h
      simp [h]
    · simp [mapLookup, hk] at h
      exact List.mem_cons_of_mem _ (ih h)

theorem mapLookup_append_some {m₁ m₂ : WMap} {w : String} {v : List ℚ}
    (h : mapLookup m₁ w = some v) : mapLookup (m₁ ++ m₂) w = some v := by
  induction m₁ with
  | nil => simp [mapLookup] at h
  | cons q rest ih =>
    obtain ⟨k, u⟩ := q
    by_cases hk : k = w
    · subst hk
      simp [mapLookup] at h ⊢
      exact h
    · simp [mapLookup, hk] at h ⊢
      exact ih h

theorem mapLookup_append_none {m₁ m₂ : WMap} {w : String}
    (h : mapLookup m₁ w = none) : mapLookup (m₁ ++ m₂) w = mapLookup m₂ w := by
  induction m₁ with
  | nil => simp
  | cons q rest ih =>
    obtain ⟨k, u⟩ := q
    by_cases hk : k = w
    · subst hk; simp [mapLookup] at h
    · simp [mapLookup, hk] at h ⊢
      exact ih h

theorem mapLookup_single_self (w : String) (v : List ℚ) :
    mapLookup [(w, v)] w = some v := by simp [mapLookup]

theorem mapLookup_single_ne {w w' : String} (h : w' ≠ w) (v : List ℚ) :
    mapLookup [(w, v)] w' = none := by
  have hne : w ≠ w' := fun hc => h hc.symm
  simp [mapLookup, hne]

theorem mapLookup_mapSet_self {m : WMap} {w : String} {v : List ℚ}
    (h : mapLookup m w = some v) (nv : List ℚ) :
    mapLookup (mapSet m w nv) w = some nv := by
  induction m with
  | nil => simp [mapLookup] at h
  | cons q rest ih =>
    obtain ⟨k, u⟩ := q
    by_cases hk : k = w
    · subst hk; simp [mapLookup, mapSet]
    · simp [mapLookup, mapSet, hk] at h ⊢
      exact ih h

theorem mapLookup_mapSet_ne {m : WMap} {w w' : String} (h : w' ≠ w) (nv : List ℚ) :
    mapLookup (mapSet m w nv) w' = mapLookup m w' := by
  induction m with
  | nil => simp [mapSet]
  | cons q rest ih =>
    obtain ⟨k, u⟩ := q
    by_cases hk : k = w
    · subst hk
      have hne : k ≠ w' := fun hc => h hc.symm
      simp [mapSet, mapLookup, hne]
    · by_cases hk' : k = w'
      · subst hk'; simp [mapSet, mapLookup, hk]
      · simp [mapSet, mapLookup, hk, hk']
        exact ih

/-- All stored probability vectors have length `n`. -/
def allLen (n : Nat) (m : WMap) : Prop := ∀ q ∈ m, (Prod.snd q).length = n

theorem allLen_nil (n : Nat) : allLen n [] := by intro q hq; simp at hq

theorem allLen_append {n : Nat} {m : WMap} (h : allLen n m) {w : String} {v : List ℚ}
    (hv : v.length = n) : allLen n (m ++ [(w, v)]) := by
  intro q hq
  rcases List.mem_append.1 hq with hq | hq
  · exact h q hq
  · simp at hq; subst hq; exact hv

theorem mem_mapSet {m : WMap} {w : String} {nv : List ℚ} {q : String × List ℚ}
    (hq : q ∈ mapSet m w nv) : q ∈ m ∨ q = (w, nv) := by
  induction m with
  | nil => simp [mapSet] at hq
  | cons p rest ih =>
    obtain ⟨k, u⟩ := p
    by_cases hk : k = w
    · subst hk
      simp [mapSet] at hq
      rcases hq with hq | hq
      · right; simp [hq]
      · left; exact List.mem_cons_of_mem _ hq
    · simp [mapSet, hk] at hq
      rcases hq with hq | hq
      · left; simp [hq]
      · rcases ih hq with h1 | h1
        · left; exact List.mem_cons_of_mem _ h1
        · right; exact h1

theorem allLen_mapSet {n : Nat} {m : WMap} (h : allLen n m) {w : String} {nv : List ℚ}
    (hv : nv.length = n) : allLen n (mapSet m w nv) := by
  intro q hq
  rcases mem_mapSet hq with hq | hq
  · exact h q hq
  · subst hq; exact hv

theorem allLen_lookup {n : Nat} {m : WMap} (h : allLen n m) {w : String} {v : List ℚ}
    (hl : mapLookup m w = some v) : v.length = n :=
  h (w, v) (mapLookup_mem hl)

/-! ### Lemmas about one loop iteration of `add_profile` -/

theorem ensureWord_lookup_self (m : WMap) (w : String) (s : Nat) :
    mapLookup (ensureWord m w s) w
      = some ((mapLookup m w).getD (List.replicate s (0 : ℚ))) := by
  unfold ensureWord
  cases hm : mapLookup m w with
  | none =>
    simp [hm, mapLookup_append_none hm, mapLookup_single_self]
  | some v => simp [hm]

theorem ensureWord_lookup_ne {w w' : String} (h : w' ≠ w) (m : WMap) (s : Nat) :
    mapLookup (ensureWord m w s) w' = mapLookup m w' := by
  unfold ensureWord
  cases hm : mapLookup m w with
  | none =>
    cases hv : mapLookup m w' with
    | none => simp [hm, mapLookup_append_none hv, mapLookup_single_ne h, hv]
    | some v => simp [hm, mapLookup_append_some hv, hv]
  | some v => simp [hm]

theorem ensureWord_allLen {s : Nat} {m : WMap} (h : allLen s m) (w : String) :
    allLen s (ensureWord m w s) := by
  unfold ensureWord
  cases hm : mapLookup m w with
  | none => simpa [hm] using allLen_append h (by simp)
  | some v => simpa [hm] using h

theorem storeProb_lookup_ne {w w' : String} (h : w' ≠ w) (m : WMap) (i : Nat) (q : ℚ) :
    mapLookup (storeProb m w i q).1 w' = mapLookup m w' := by
  unfold storeProb
  cases hm : mapLookup m w with
  | none => simp
  | some v =>
    by_cases hi : i < v.length
    · simp [hi, mapLookup_mapSet_ne h]
    · simp [hi]

theorem storeProb_success {m m' : WMap} {w : String} {i : Nat} {q : ℚ}
    (h : storeProb m w i q = (m', none)) :
    ∃ v, mapLookup m w = some v ∧ i < v.length ∧ m' = mapSet m w (v.set i q) := by
  unfold storeProb at h
  cases hm : mapLookup m w with
  | none => simp [hm] at h
  | some v =>
    simp only [hm] at h
    by_cases hi : i < v.length
    · rw [if_pos hi] at h
      injection h with h1 h2
      exact ⟨v, rfl, hi, h1.symm⟩
    · rw [if_neg hi] at h
      simp at h

theorem storeProb_allLen {s : Nat} {m : WMap} (h : allLen s m) (w : String) (i : Nat) (q : ℚ) :
    allLen s (storeProb m w i q).1 := by
  unfold storeProb
  cases hm : mapLookup m w with
  | none => simpa using h
  | some v =>
    by_cases hi : i < v.length
    · simp only [hi, if_true]
      exact allLen_mapSet h (by simp [allLen_lookup h hm])
    · simpa [hi] using h

theorem addWord_lookup_ne {w' word : String} (hne : w' ≠ word)
    (m : WMap) (c : Nat) (n : List Nat) (i s : Nat) :
    mapLookup (addWord m word c n i s).1 w' = mapLookup m w' := by
  have he := ensureWord_lookup_ne hne m s
  unfold addWord
  by_cases h13 : 1 ≤ word.length ∧ word.length ≤ 3
  · simp only [h13, if_true]
    cases hg : n[word.length - 1]? with
    | none => simpa using he
    | some d =>
      by_cases hd : d = 0
      · simpa [hd] using he
      · simpa [hd] using (storeProb_lookup_ne hne (ensureWord m word s) i _).trans he
  · simpa [h13] using he

theorem addWord_success_lookup {m m' : WMap} {word : String} {c : Nat} {n : List Nat}
    {i s : Nat} (h13 : 1 ≤ word.length ∧ word.length ≤ 3)
    (h : addWord m word c n i s = (m', none)) :
    ∃ d, n[word.length - 1]? = some d ∧ d ≠ 0 ∧
      i < ((mapLookup m word).getD (List.replicate s (0 : ℚ))).length ∧
      mapLookup m' word
        = some (((mapLookup m word).getD (List.replicate s (0 : ℚ))).set i
            ((c : ℚ) / (d : ℚ))) := by
  unfold addWord at h
  rw [if_pos h13] at h
  cases hg : n[word.length - 1]? with
  | none => simp [hg] at h
  | some d =>
    simp only [hg] at h
    by_cases hd : d = 0
    · rw [if_pos hd] at h
      simp at h
    · rw [if_neg hd] at h
      obtain ⟨v, hv, hi, hm'⟩ := storeProb_success h
      rw [ensureWord_lookup_self] at hv
      obtain rfl : ((mapLookup m word).getD (List.replicate s (0 : ℚ))) = v :=
        Option.some.inj hv
      refine ⟨d, rfl, hd, hi, ?_⟩
      rw [hm']
      exact mapLookup_mapSet_self (by rw [ensureWord_lookup_self]) _

theorem addWord_outside {word : String} (h13 : ¬ (1 ≤ word.length ∧ word.length ≤ 3))
    (m : WMap) (c : Nat) (n : List Nat) (i s : Nat) :
    addWord m word c n i s = (ensureWord m word s, none) := by
  unfold addWord
  simp [h13]

theorem addWord_allLen {s : Nat} {m : WMap} (h : allLen s m)
    (word : String) (c : Nat) (n : List Nat) (i : Nat) :
    allLen s (addWord m word c n i s).1 := by
  have he := ensureWord_allLen h word
  unfold addWord
  by_cases h13 : 1 ≤ word.length ∧ word.length ≤ 3
  · simp only [h13, if_true]
    cases hg : n[word.length - 1]? with
    | none => simpa using he
    | some d =>
      by_cases hd : d = 0
      · simpa [hd] using he
      · simpa [hd] using storeProb_allLen he word i _
  · simpa [h13] using he

theorem addWord_preserve {m m' : WMap} {word : String} {c : Nat} {n : List Nat}
    {i s : Nat} {e : Option PyError} (h : addWord m word c n i s = (m', e))
    {w' : String} {v : List ℚ} (hv : mapLookup m w' = some v) :
    ∃ v', mapLookup m' w' = some v' ∧ v'.length = v.length ∧
      ∀ j, j ≠ i → v'[j]? = v[j]? := by
  by_cases hne : w' = word
  · subst hne
    have hens : mapLookup (ensureWord m w' s) w' = some v := by
      rw [ensureWord_lookup_self, hv]; rfl
    unfold addWord at h
    by_cases h13 : 1 ≤ w'.length ∧ w'.length ≤ 3
    · rw [if_pos h13] at h
      cases hg : n[w'.length - 1]? with
      | none =>
        simp only [hg] at h
        injection h with h1 h2
        exact ⟨v, h1 ▸ hens, rfl, fun j _ => rfl⟩
      | some d =>
        simp only [hg] at h
        by_cases hd : d = 0
        · rw [if_pos hd] at h
          injection h with h1 h2
          exact ⟨v, h1 ▸ hens, rfl, fun j _ => rfl⟩
        · rw [if_neg hd] at h
          unfold storeProb at h
          simp only [hens] at h
          by_cases hi : i < v.length
          · rw [if_pos hi] at h
            injection h with h1 h2
            refine ⟨v.set i ((c : ℚ) / (d : ℚ)), ?_, by simp, ?_⟩
            · rw [← h1]
              exact mapLookup_mapSet_self hens _
            · intro j hj
              exact List.getElem?_set_ne (fun hc => hj hc.symm)
          · rw [if_neg hi] at h
            injection h with h1 h2
            exact ⟨v, h1 ▸ hens, rfl, fun j _ => rfl⟩
    · rw [if_neg h13] at h
      injection h with h1 h2
      exact ⟨v, h1 ▸ hens, rfl, fun j _ => rfl⟩
  · refine ⟨v, ?_, rfl, fun j _ => rfl⟩
    have := addWord_lookup_ne hne m c n i s
    rw [h] at this
    simpa [this] using hv

theorem addWord_ne_zeroDiv {word : String} {n : List Nat}
    (hd : 1 ≤ word.length → word.length ≤ 3 →
      ∃ d, n[word.length - 1]? = some d ∧ 0 < d)
    (m : WMap) (c : Nat) (i s : Nat) :
    (addWord m word c n i s).2 ≠ some PyError.zeroDivision := by
  unfold addWord
  by_cases h13 : 1 ≤ word.length ∧ word.length ≤ 3
  · simp only [h13, if_true]
    obtain ⟨d, hg, hdp⟩ := hd h13.1 h13.2
    rw [hg]
    have hdz : ¬ d = 0 := Nat.pos_iff_ne_zero.mp hdp
    simp only [hdz, if_false]
    unfold storeProb
    cases hm : mapLookup (ensureWord m word s) word with
    | none => simp
    | some v =>
      by_cases hi : i < v.length
      · simp [hi]
      · simp [hi]
  · simp [h13]

/-! ### Lemmas about the whole frequency loop -/

theorem addWords_lookup_notin {n : List Nat} {i s : Nat} {freq : List (String × Nat)}
    {w : String} (hw : w ∉ freq.map Prod.fst) (m : WMap) :
    mapLookup (addWords n i s m freq).1 w = mapLookup m w := by
  induction freq generalizing m with
  | nil => simp [addWords]
  | cons q rest ih =>
    obtain ⟨w₁, c₁⟩ := q
    simp only [List.map_cons, List.mem_cons, not_or] at hw
    obtain ⟨hne, hrest⟩ := hw
    have hfr : mapLookup (addWord m w₁ c₁ n i s).1 w = mapLookup m w :=
      addWord_lookup_ne hne m c₁ n i s
    cases ha : addWord m w₁ c₁ n i s with
    | mk m₁ e =>
      rw [ha] at hfr
      cases e with
      | none =>
        simp only [addWords, ha]
        rw [ih hrest m₁]
        exact hfr
      | some e' =>
        simp only [addWords, ha]
        exact hfr

theorem addWords_success_lookup {n : List Nat} {i s : Nat} {freq : List (String × Nat)}
    (hnodup : (freq.map Prod.fst).Nodup) {m m' : WMap}
    (h : addWords n i s m freq = (m', none)) :
    ∀ w c, (w, c) ∈ freq → 1 ≤ w.length → w.length ≤ 3 →
      ∃ d, n[w.length - 1]? = some d ∧ d ≠ 0 ∧
        i < ((mapLookup m w).getD (List.replicate s (0 : ℚ))).length ∧
        mapLookup m' w
          = some (((mapLookup m w).getD (List.replicate s (0 : ℚ))).set i
              ((c : ℚ) / (d : ℚ))) := by
  induction freq generalizing m with
  | nil => intro w c hm; simp at hm
  | cons q rest ih =>
    obtain ⟨w₁, c₁⟩ := q
    simp only [List.map_cons, List.nodup_cons] at hnodup
    obtain ⟨hw₁, hrest⟩ := hnodup
    intro w c hm h1 h3
    cases ha : addWord m w₁ c₁ n i s with
    | mk m₁ e =>
      cases e with
      | some e' =>
        simp only [addWords, ha] at h
        simp at h
      | none =>
        simp only [addWords, ha] at h
        rcases List.mem_cons.1 hm with hm | hm
        · obtain ⟨hw, hc⟩ := Prod.mk.injEq .. ▸ hm
          subst hw; subst hc
          obtain ⟨d, hg, hd, hi, hlook⟩ := addWord_success_lookup ⟨h1, h3⟩ ha
          refine ⟨d, hg, hd, hi, ?_⟩
          have hnotin := addWords_lookup_notin (n := n) (i := i) (s := s) hw₁ m₁
          simp only [h] at hnotin
          rw [hnotin]
          exact hlook
        · have hwne : w ≠ w₁ := by
            intro hc
            exact hw₁ (hc ▸ List.mem_map_of_mem Prod.fst hm)
          have hfr : mapLookup m₁ w = mapLookup m w := by
            have := addWord_lookup_ne hwne m c₁ n i s
            rwa [ha] at this
          obtain ⟨d, hg, hd, hi, hlook⟩ := ih hrest h w c hm h1 h3
          rw [hfr] at hi hlook
          exact ⟨d, hg, hd, hi, hlook⟩

theorem addWords_allLen {s : Nat} {m : WMap} (h : allLen s m) (n : List Nat) (i : Nat)
    (freq : List (String × Nat)) : allLen s (addWords n i s m freq).1 := by
  induction freq generalizing m with
  | nil => simpa [addWords] using h
  | cons q rest ih =>
    obtain ⟨w₁, c₁⟩ := q
    have hm₁ := addWord_allLen h w₁ c₁ n i
    cases ha : addWord m w₁ c₁ n i s with
    | mk m₁ e =>
      rw [ha] at hm₁
      cases e with
      | none => simpa [addWords, ha] using ih hm₁
      | some e' => simpa [addWords, ha] using hm₁

theorem addWords_preserve {n : List Nat} {i s : Nat} {freq : List (String × Nat)}
    {m m' : WMap} {e : Option PyError} (h : addWords n i s m freq = (m', e))
    {w : String} {v : List ℚ} (hv : mapLookup m w = some v) :
    ∃ v', mapLookup m' w = some v' ∧ v'.length = v.length ∧
      ∀ j, j ≠ i → v'[j]? = v[j]? := by
  induction freq generalizing m v with
  | nil =>
    simp only [addWords] at h
    injection h with h1 h2
    exact ⟨v, h1 ▸ hv, rfl, fun _ _ => rfl⟩
  | cons q rest ih =>
    obtain ⟨w₁, c₁⟩ := q
    cases ha : addWord m w₁ c₁ n i s with
    | mk m₁ e₁ =>
      obtain ⟨v₁, hv₁, hlen₁, hget₁⟩ := addWord_preserve ha hv
      cases e₁ with
      | none =>
        simp only [addWords, ha] at h
        obtain ⟨v', hv', hlen', hget'⟩ := ih h hv₁
        exact ⟨v', hv', hlen'.trans hlen₁,
          fun j hj => (hget' j hj).trans (hget₁ j hj)⟩
      | some e' =>
        simp only [addWords, ha] at h
        injection h with h1 h2
        exact ⟨v₁, h1 ▸ hv₁, hlen₁, hget₁⟩

theorem addWords_ne_zeroDiv {n : List Nat} {freq : List (String × Nat)}
    (hd : ∀ w c, (w, c) ∈ freq → 1 ≤ w.length → w.length ≤ 3 →
      ∃ d, n[w.length - 1]? = some d ∧ 0 < d)
    (i s : Nat) (m : WMap) :
    (addWords n i s m freq).2 ≠ some PyError.zeroDivision := by
  induction freq generalizing m with
  | nil => simp [addWords]
  | cons q rest ih =>
    obtain ⟨w₁, c₁⟩ := q
    cases ha : addWord m w₁ c₁ n i s with
    | mk m₁ e =>
      cases e with
      | none =>
        simp only [addWords, ha]
        exact ih (fun w c hm => hd w c (List.mem_cons_of_mem _ hm)) m₁
      | some e' =>
        simp only [addWords, ha]
        have := addWord_ne_zeroDiv
          (fun h1 h3 => hd w₁ c₁ (List.mem_cons_self _ _) h1 h3) m c₁ i s
        rw [ha] at this
        simpa using this

/-! ### Lemmas about `add_profile` and the load loops -/

theorem add_profile_dup {f : DetectorFactory} {p : LangProfile} (h : p.name ∈ f.langlist)
    (i s : Nat) :
    add_profile f p i s = (f, some (PyError.langDetect ErrorCode.DuplicateLangError)) := by
  simp [add_profile, h]

theorem add_profile_eq {f : DetectorFactory} {p : LangProfile} (h : p.name ∉ f.langlist)
    (i s : Nat) :
    add_profile f p i s
      = (⟨(addWords p.n_words i s f.word_lang_prob_map p.freq).1,
          f.langlist ++ [p.name]⟩,
         (addWords p.n_words i s f.word_lang_prob_map p.freq).2) := by
  simp [add_profile, h]

theorem add_profile_success {f f' : DetectorFactory} {p : LangProfile} {i s : Nat}
    (h : add_profile f p i s = (f', none)) :
    p.name ∉ f.langlist ∧ f'.langlist = f.langlist ++ [p.name] ∧
      addWords p.n_words i s f.word_lang_prob_map p.freq = (f'.word_lang_prob_map, none) := by
  by_cases hd : p.name ∈ f.langlist
  · rw [add_profile_dup hd] at h
    simp at h
  · rw [add_profile_eq hd] at h
    injection h with h1 h2
    subst h1
    exact ⟨hd, rfl, Prod.ext rfl h2⟩

theorem add_profile_preserve {f f' : DetectorFactory} {p : LangProfile} {i s : Nat}
    {e : Option PyError} (h : add_profile f p i s = (f', e))
    {w : String} {v : List ℚ} (hv : mapLookup f.word_lang_prob_map w = some v) :
    ∃ v', mapLookup f'.word_lang_prob_map w = some v' ∧ v'.length = v.length ∧
      ∀ j, j ≠ i → v'[j]? = v[j]? := by
  by_cases hd : p.name ∈ f.langlist
  · rw [add_profile_dup hd] at h
    injection h with h1 h2
    exact ⟨v, h1 ▸ hv, rfl, fun _ _ => rfl⟩
  · rw [add_profile_eq hd] at h
    injection h with h1 h2
    subst h1
    exact addWords_preserve rfl hv

theorem add_profile_allLen {f : DetectorFactory} {s : Nat}
    (hall : allLen s f.word_lang_prob_map) (p : LangProfile) (i : Nat) :
    allLen s (add_profile f p i s).1.word_lang_prob_map := by
  by_cases hd : p.name ∈ f.langlist
  · rw [add_profile_dup hd]
    exact hall
  · rw [add_profile_eq hd]
    exact addWords_allLen hall p.n_words i p.freq

theorem loadLoop_len {s : Nat} {ps : List (Option LangProfile)} {f f' : DetectorFactory}
    {idx : Nat} (hlen : f.langlist.length = idx)
    (hall : allLen s f.word_lang_prob_map) (hsum : idx + ps.length = s)
    (h : loadLoop s f idx ps = (f', none)) :
    f'.langlist.length = s ∧ allLen s f'.word_lang_prob_map := by
  induction ps generalizing f idx with
  | nil =>
    simp only [loadLoop] at h
    injection h with h1 h2
    subst h1
    simp only [List.length_nil, Nat.add_zero] at hsum
    exact ⟨hsum ▸ hlen, hall⟩
  | cons q rest ih =>
    cases q with
    | none => simp [loadLoop] at h
    | some p =>
      cases ha : add_profile f p idx s with
      | mk f₁ e =>
        cases e with
        | some e' => simp [loadLoop, ha] at h
        | none =>
          simp only [loadLoop, ha] at h
          obtain ⟨hnot, hlang, hwords⟩ := add_profile_success ha
          have hlen₁ : f₁.langlist.length = idx + 1 := by
            rw [hlang, List.length_append, hlen, List.length_singleton]
          have hall₁ : allLen s f₁.word_lang_prob_map := by
            have := add_profile_allLen hall p idx
            rwa [ha] at this
          have hsum₁ : (idx + 1) + rest.length = s := by
            simpa [Nat.add_comm, Nat.add_assoc, Nat.add_left_comm] using hsum
          exact ih hlen₁ hall₁ hsum₁ h

theorem loadLoop_names {s : Nat} {ps : List LangProfile} {f f' : DetectorFactory}
    {idx : Nat} (h : loadLoop s f idx (ps.map some) = (f', none)) :
    f'.langlist = f.langlist ++ ps.map LangProfile.name := by
  induction ps generalizing f idx with
  | nil =>
    simp only [List.map_nil, loadLoop] at h
    injection h with h1 h2
    subst h1
    simp
  | cons p rest ih =>
    simp only [List.map_cons, loadLoop] at h
    cases ha : add_profile f p idx s with
    | mk f₁ e =>
      cases e with
      | some e' => simp [ha] at h
      | none =>
        simp only [ha] at h
        obtain ⟨hnot, hlang, hwords⟩ := add_profile_success ha
        rw [ih h, hlang]
        simp

theorem loadLoop_preserve {s : Nat} {ps : List (Option LangProfile)} {f f' : DetectorFactory}
    {idx : Nat} {e : Option PyError} (h : loadLoop s f idx ps = (f', e))
    {w : String} {v : List ℚ} (hv : mapLookup f.word_lang_prob_map w = some v) :
    ∃ v', mapLookup f'.word_lang_prob_map w = some v' ∧ v'.length = v.length ∧
      ∀ j, j < idx → v'[j]? = v[j]? := by
  induction ps generalizing f idx v with
  | nil =>
    simp only [loadLoop] at h
    injection h with h1 h2
    exact ⟨v, h1 ▸ hv, rfl, fun _ _ => rfl⟩
  | cons q rest ih =>
    cases q with
    | none =>
      simp only [loadLoop] at h
      injection h with h1 h2
      exact ⟨v, h1 ▸ hv, rfl, fun _ _ => rfl⟩
    | some p =>
      simp only [loadLoop] at h
      cases ha : add_profile f p idx s with
      | mk f₁ e₁ =>
        obtain ⟨v₁, hv₁, hlen₁, hget₁⟩ := add_profile_preserve ha hv
        cases e₁ with
        | none =>
          simp only [ha] at h
          obtain ⟨v', hv', hlen', hget'⟩ := ih h hv₁
          refine ⟨v', hv', hlen'.trans hlen₁, fun j hj => ?_⟩
          rw [hget' j (Nat.lt_succ_of_lt hj), hget₁ j (Nat.ne_of_lt hj)]
        | some e' =>
          simp only [ha] at h
          injection h with h1 h2
          exact ⟨v₁, h1 ▸ hv₁, hlen₁, fun j hj => hget₁ j (Nat.ne_of_lt hj)⟩

theorem loadLoop_probs {s : Nat} {ps : List LangProfile} {f f' : DetectorFactory}
    {idx : Nat} (h : loadLoop s f idx (ps.map some) = (f', none))
    (hnodup : ∀ p ∈ ps, (p.freq.map Prod.fst).Nodup) :
    ∀ t (ht : t < ps.length), ∀ w c, (w, c) ∈ (ps.get ⟨t, ht⟩).freq →
      1 ≤ w.length → w.length ≤ 3 →
      ∃ d v, (ps.get ⟨t, ht⟩).n_words[w.length - 1]? = some d ∧
        mapLookup f'.word_lang_prob_map w = some v ∧
        v[idx + t]? = some ((c : ℚ) / (d : ℚ)) := by
  induction ps generalizing f idx with
  | nil => intro t ht; simp at ht
  | cons p rest ih =>
    simp only [List.map_cons, loadLoop] at h
    cases ha : add_profile f p idx s with
    | mk f₁ e =>
      cases e with
      | some e' => simp [ha] at h
      | none =>
        simp only [ha] at h
        obtain ⟨hnot, hlang, hwords⟩ := add_profile_success ha
        intro t ht w c hm h1 h3
        cases t with
        | zero =>
          simp only [List.get] at hm ⊢
          obtain ⟨d, hg, hd, hi, hlook⟩ :=
            addWords_success_lookup (hnodup p (List.mem_cons_self _ _)) hwords w c hm h1 h3
          obtain ⟨v', hv', hlen', hget'⟩ := loadLoop_preserve h hlook
          refine ⟨d, v', hg, hv', ?_⟩
          rw [Nat.add_zero, hget' idx (Nat.lt_succ_self idx)]
          exact List.getElem?_set_self hi
        | succ t' =>
          simp only [List.get] at hm ⊢
          have ht' : t' < rest.length := Nat.lt_of_succ_lt_succ ht
          obtain ⟨d, v, hg, hv, hget⟩ :=
            ih h (fun q hq => hnodup q (List.mem_cons_of_mem _ hq)) t' ht' w c hm h1 h3
          refine ⟨d, v, hg, hv, ?_⟩
          rw [show idx + (t' + 1) = (idx + 1) + t' by omega]
          exact hget

/-- A malformed record anywhere in the input aborts the loop with the state
reached so far: whatever profiles preceded remain loaded. -/
theorem loadLoop_malformed {s : Nat} {pre : List (Option LangProfile)}
    {f f₁ : DetectorFactory} {idx : Nat}
    (h : loadLoop s f idx pre = (f₁, none)) (rest : List (Option LangProfile)) :
    loadLoop s f idx (pre ++ none :: rest)
      = (f₁, some (PyError.langDetect ErrorCode.FormatError)) := by
  induction pre generalizing f idx with
  | nil =>
    simp only [loadLoop] at h
    injection h with h1 h2
    subst h1
    simp [loadLoop]
  | cons q pre' ih =>
    cases q with
    | none => simp [loadLoop] at h
    | some p =>
      simp only [loadLoop] at h ⊢
      cases ha : add_profile f p idx s with
      | mk f₂ e =>
        cases e with
        | some e' => simp [ha] at h
        | none =>
          simp only [ha] at h ⊢
          exact ih h

/-! ### Lemmas about `get_best_timehash` -/

theorem findTimehash_ok {current : Nat} {l : List Nat} {t : Nat}
    (h : findTimehash current l = Except.ok t) : t ∈ l ∧ t ≤ current := by
  induction l with
  | nil => simp [findTimehash] at h
  | cons a as ih =>
    unfold findTimehash at h
    by_cases ha : a ≤ current
    · rw [if_pos ha] at h
      injection h with h1
      subst h1
      exact ⟨List.mem_cons_self _ _, ha⟩
    · rw [if_neg ha] at h
      obtain ⟨hm, hl⟩ := ih h
      exact ⟨List.mem_cons_of_mem _ hm, hl⟩

theorem findTimehash_max {current : Nat} {l : List Nat} {t : Nat}
    (hsorted : l.Pairwise (· ≥ ·)) (h : findTimehash current l = Except.ok t) :
    ∀ o ∈ l, o ≤ current → o ≤ t := by
  induction l with
  | nil => simp [findTimehash] at h
  | cons a as ih =>
    rw [List.pairwise_cons] at hsorted
    obtain ⟨hA, hAs⟩ := hsorted
    unfold findTimehash at h
    by_cases ha : a ≤ current
    · rw [if_pos ha] at h
      injection h with h1
      subst h1
      intro o ho _
      rcases List.mem_cons.1 ho with rfl | ho
      · exact Nat.le_refl _
      · exact hA o ho
    · rw [if_neg ha] at h
      intro o ho hoc
      rcases List.mem_cons.1 ho with rfl | ho
      · exact absurd hoc ha
      · exact ih hAs h o ho hoc

theorem findTimehash_error {current : Nat} {l : List Nat} :
    findTimehash current l = Except.error PyError.nameError ↔ ∀ o ∈ l, current < o := by
  induction l with
  | nil => simp [findTimehash]
  | cons a as ih =>
    unfold findTimehash
    by_cases ha : a ≤ current
    · rw [if_pos ha]
      constructor
      · intro h
        exact Except.noConfusion h
      · intro h
        exact absurd (h a (List.mem_cons_self _ _)) (Nat.not_lt.mpr ha)
    · rw [if_neg ha]
      rw [ih]
      constructor
      · intro h o ho
        rcases List.mem_cons.1 ho with rfl | ho
        · exact Nat.lt_of_not_le ha
        · exact h o ho
      · intro h o ho
        exact h o (List.mem_cons_of_mem _ ho)

theorem mem_sortDesc {l : List Nat} {a : Nat} : a ∈ sortDesc l ↔ a ∈ l :=
  (List.perm_insertionSort _ l).mem_iff

theorem sortDesc_pairwise (l : List Nat) : (sortDesc l).Pairwise (· ≥ ·) :=
  List.sorted_insertionSort _ l

/-! ### The claims -/

/-- C1: for every profile record and every n-gram key of length 1 to 3 in its
frequency map, a successful `add_profile` stores the probability
`count / n_words[len-1]` at position `index` of that key's vector in
`word_lang_prob_map`, and leaves every other language slot of the vector at
its existing value (the vector defaults to `[0.0] * langsize` when the key is
first seen).  The keys of `freq` are distinct because Python dict keys are. -/
theorem add_profile_stores_probabilities
    {f f' : DetectorFactory} {p : LangProfile} {index langsize : Nat}
    (hnodup : (p.freq.map Prod.fst).Nodup)
    (h : add_profile f p index langsize = (f', none)) :
    ∀ w c, (w, c) ∈ p.freq → 1 ≤ w.length → w.length ≤ 3 →
      ∃ d, p.n_words[w.length - 1]? = some d ∧
        mapLookup f'.word_lang_prob_map w
          = some (((mapLookup f.word_lang_prob_map w).getD
              (List.replicate langsize (0 : ℚ))).set index ((c : ℚ) / (d : ℚ))) ∧
        index < ((mapLookup f.word_lang_prob_map w).getD
              (List.replicate langsize (0 : ℚ))).length ∧
        ∀ j, j ≠ index →
          (((mapLookup f.word_lang_prob_map w).getD
              (List.replicate langsize (0 : ℚ))).set index ((c : ℚ) / (d : ℚ)))[j]?
            = ((mapLookup f.word_lang_prob_map w).getD
                (List.replicate langsize (0 : ℚ)))[j]? := by
  intro w c hm h1 h3
  obtain ⟨hnot, hlang, hwords⟩ := add_profile_success h
  obtain ⟨d, hg, hd, hi, hlook⟩ := addWords_success_lookup hnodup hwords w c hm h1 h3
  exact ⟨d, hg, hlook, hi, fun j hj => List.getElem?_set_ne (fun hc => hj hc.symm)⟩

/-- C1 witness: `add_profile(pEn, 0, 2)` on the fresh factory stores
`2/4` at slot 0 of the vector of `"a"` and leaves slot 1 at `0.0`. -/
theorem add_profile_stores_probabilities_witness :
    ((pEn.freq.map Prod.fst).Nodup ∧
      add_profile DetectorFactory.mkEmpty pEn 0 2 = (fEnOnly, none)) ∧
    (∃ d, pEn.n_words["a".length - 1]? = some d ∧
      mapLookup fEnOnly.word_lang_prob_map "a"
        = some ((List.replicate 2 (0 : ℚ)).set 0 (((2 : Nat) : ℚ) / (d : ℚ))) ∧
      0 < (List.replicate 2 (0 : ℚ)).length ∧
      ∀ j, j ≠ 0 → ((List.replicate 2 (0 : ℚ)).set 0 (((2 : Nat) : ℚ) / (d : ℚ)))[j]?
          = (List.replicate 2 (0 : ℚ))[j]?) :=
  ⟨⟨by decide, rfl⟩,
   @add_profile_stores_probabilities DetectorFactory.mkEmpty fEnOnly pEn 0 2
     (by decide) rfl "a" 2 (by decide) (by decide) (by decide)⟩

/-- C2 counterexample: a successful `load_profile` over a listing that
contains a hidden file leaves vectors of length 3 (the raw listing length)
while only 2 languages are in `langlist`, refuting the claim that every
stored vector's length equals the language count after any successful load
call. -/
theorem load_profile_vector_length_mismatch :
    (load_profile DetectorFactory.mkEmpty [dotEntry, enEntry, frEntry]).2 = none ∧
    ¬ (∀ q ∈ (load_profile DetectorFactory.mkEmpty
          [dotEntry, enEntry, frEntry]).1.word_lang_prob_map,
        (Prod.snd q).length
          = (load_profile DetectorFactory.mkEmpty
              [dotEntry, enEntry, frEntry]).1.langlist.length) := by
  constructor
  · rfl
  · decide

/-- C2 (amended): after `load_json_profile` completes successfully on a fresh
factory, every vector stored in `word_lang_prob_map` has length equal to the
number of languages in `langlist`; for `load_profile` the vectors are sized to
the raw directory-listing length, which exceeds the language count whenever a
listed entry is skipped (hidden file or non-file). -/
theorem load_json_profile_vector_lengths
    {ps : List (Option LangProfile)} {f' : DetectorFactory}
    (h : load_json_profile DetectorFactory.mkEmpty ps = (f', none)) :
    ∀ q ∈ f'.word_lang_prob_map, (Prod.snd q).length = f'.langlist.length := by
  have hloop : loadLoop ps.length DetectorFactory.mkEmpty 0 ps = (f', none) := by
    unfold load_json_profile at h
    by_cases hl : ps.length < 2
    · rw [if_pos hl] at h
      simp at h
    · rwa [if_neg hl] at h
  obtain ⟨h1, h2⟩ :=
    @loadLoop_len ps.length ps DetectorFactory.mkEmpty f' 0 rfl (allLen_nil _)
      (by simp) hloop
  intro q hq
  rw [h1]
  exact h2 q hq

/-- C2 witness: loading `pEn` then `pFr` on a fresh factory yields vectors of
length 2 = number of loaded languages. -/
theorem load_json_profile_vector_lengths_witness :
    load_json_profile DetectorFactory.mkEmpty [some pEn, some pFr] = (fEnFr, none) ∧
    ∀ q ∈ fEnFr.word_lang_prob_map, (Prod.snd q).length = fEnFr.langlist.length :=
  ⟨rfl, @load_json_profile_vector_lengths [some pEn, some pFr] fEnFr rfl⟩

/-- C3: for every factory state, `add_profile` on a profile whose language is
already in `langlist` raises `DuplicateLangError` (and mutates nothing),
whatever `index` and `langsize` are. -/
theorem add_profile_duplicate_raises
    {f : DetectorFactory} {p : LangProfile} (h : p.name ∈ f.langlist)
    (index langsize : Nat) :
    add_profile f p index langsize
      = (f, some (PyError.langDetect ErrorCode.DuplicateLangError)) :=
  add_profile_dup h index langsize

/-- C3 witness: re-adding `pEn` to a factory already holding `"en"` raises
`DuplicateLangError`. -/
theorem add_profile_duplicate_raises_witness :
    pEn.name ∈ (⟨[], ["en"]⟩ : DetectorFactory).langlist ∧
    add_profile ⟨[], ["en"]⟩ pEn 0 2
      = (⟨[], ["en"]⟩, some (PyError.langDetect ErrorCode.DuplicateLangError)) :=
  ⟨by decide, @add_profile_duplicate_raises ⟨[], ["en"]⟩ pEn (by decide) 0 2⟩

/-- C4 counterexample: `load_profile` over a directory listing with exactly
one profile file does NOT raise `NeedLoadProfileError` — it loads the single
language and succeeds, refuting the claim that every load call given fewer
than 2 profiles raises the error. -/
theorem load_profile_single_profile_no_error :
    (load_profile DetectorFactory.mkEmpty [enEntry]).2 = none ∧
    (load_profile DetectorFactory.mkEmpty [enEntry]).1.langlist = ["en"] := by
  constructor
  · rfl
  · rfl

/-- C4 (amended): `load_json_profile` with fewer than 2 inputs raises
`NeedLoadProfileError`, but `load_profile` raises it only when the directory
listing is empty; a listing with a single profile loads without error. -/
theorem load_needs_profiles
    {f : DetectorFactory} {json_profiles : List (Option LangProfile)}
    {list_files : List DirEntry}
    (h2 : json_profiles.length < 2) (he : list_files = []) :
    load_json_profile f json_profiles
        = (f, some (PyError.langDetect ErrorCode.NeedLoadProfileError)) ∧
    load_profile f list_files
        = (f, some (PyError.langDetect ErrorCode.NeedLoadProfileError)) := by
  constructor
  · unfold load_json_profile
    rw [if_pos h2]
  · subst he
    simp [load_profile]

/-- C4 witness: one JSON profile raises the error, and so does an empty
directory listing. -/
theorem load_needs_profiles_witness :
    (([some pEn] : List (Option LangProfile)).length < 2 ∧ ([] : List DirEntry) = []) ∧
    (load_json_profile DetectorFactory.mkEmpty [some pEn]
        = (DetectorFactory.mkEmpty, some (PyError.langDetect ErrorCode.NeedLoadProfileError)) ∧
     load_profile DetectorFactory.mkEmpty []
        = (DetectorFactory.mkEmpty, some (PyError.langDetect ErrorCode.NeedLoadProfileError))) :=
  ⟨⟨by decide, rfl⟩,
   @load_needs_profiles DetectorFactory.mkEmpty [some pEn] [] (by decide) rfl⟩

/-- C5 counterexample: `load_json_profile` on `[pEn, malformed]` raises
`FormatError` but leaves `"en"` loaded — the factory is NOT restored to its
pre-call state, refuting the claim that nothing preceding the malformed
record remains added. -/
theorem load_json_profile_not_atomic :
    load_json_profile DetectorFactory.mkEmpty [some pEn, none]
        = (fEnOnly, some (PyError.langDetect ErrorCode.FormatError)) ∧
    fEnOnly.langlist = ["en"] ∧ fEnOnly ≠ DetectorFactory.mkEmpty := by
  refine ⟨rfl, rfl, ?_⟩
  intro hc
  have : fEnOnly.langlist = DetectorFactory.mkEmpty.langlist := by rw [hc]
  simp [fEnOnly, DetectorFactory.mkEmpty] at this

/-- C5 (amended): a malformed record makes `load_json_profile` raise
`FormatError` and stop (no later profiles are added), but every profile
successfully added before the malformed record remains in the factory: the
final state is exactly the state reached after the preceding prefix. -/
theorem load_json_profile_aborts_keeping_loaded
    {f f₁ : DetectorFactory} {pre rest : List (Option LangProfile)}
    (hlen : ¬ (pre ++ none :: rest).length < 2)
    (hpre : loadLoop (pre ++ none :: rest).length f 0 pre = (f₁, none)) :
    load_json_profile f (pre ++ none :: rest)
      = (f₁, some (PyError.langDetect ErrorCode.FormatError)) := by
  unfold load_json_profile
  rw [if_neg hlen]
  exact loadLoop_malformed hpre rest

/-- C5 witness: with prefix `[pEn]` and a malformed second record, the load
ends in `FormatError` with `pEn` still loaded. -/
theorem load_json_profile_aborts_keeping_loaded_witness :
    (¬ (([some pEn] ++ none :: []) : List (Option LangProfile)).length < 2 ∧
      loadLoop ([some pEn] ++ none :: []).length DetectorFactory.mkEmpty 0 [some pEn]
        = (fEnOnly, none)) ∧
    load_json_profile DetectorFactory.mkEmpty ([some pEn] ++ none :: [])
      = (fEnOnly, some (PyError.langDetect ErrorCode.FormatError)) :=
  ⟨⟨by decide, rfl⟩,
   @load_json_profile_aborts_keeping_loaded DetectorFactory.mkEmpty fEnOnly
     [some pEn] [] (by decide) rfl⟩

/-- C6: for every sequence of distinct-language profiles loaded successfully
by `load_json_profile` from the fresh factory, language index assignment is
stable and matches presentation order: `langlist` equals the language names in
presentation order (position of first appearance), and the i-th profile's
probability for each of its n-grams of length 1–3 sits at position i of that
n-gram's vector. -/
theorem load_json_profile_index_assignment
    {ps : List LangProfile} {f' : DetectorFactory}
    (h : load_json_profile DetectorFactory.mkEmpty (ps.map some) = (f', none))
    (hnodup : ∀ p ∈ ps, (p.freq.map Prod.fst).Nodup) :
    f'.langlist = ps.map LangProfile.name ∧
    ∀ t (ht : t < ps.length), ∀ w c, (w, c) ∈ (ps.get ⟨t, ht⟩).freq →
      1 ≤ w.length → w.length ≤ 3 →
      ∃ d v, (ps.get ⟨t, ht⟩).n_words[w.length - 1]? = some d ∧
        mapLookup f'.word_lang_prob_map w = some v ∧
        v[t]? = some ((c : ℚ) / (d : ℚ)) := by
  have hloop : loadLoop (ps.map some).length DetectorFactory.mkEmpty 0 (ps.map some)
      = (f', none) := by
    unfold load_json_profile at h
    by_cases hl : (ps.map some).length < 2
    · rw [if_pos hl] at h
      simp at h
    · rwa [if_neg hl] at h
  constructor
  · simpa using loadLoop_names hloop
  · intro t ht w c hm h1 h3
    obtain ⟨d, v, hg, hv, hget⟩ := loadLoop_probs hloop hnodup t ht w c hm h1 h3
    refine ⟨d, v, hg, hv, ?_⟩
    simpa using hget

/-- C6 witness: after loading `[pEn, pFr]`, `langlist = ["en", "fr"]` and the
bigram `"ab"` of the second profile has probability `2/4` at position 1. -/
theorem load_json_profile_index_assignment_witness :
    (load_json_profile DetectorFactory.mkEmpty ([pEn, pFr].map some) = (fEnFr, none) ∧
      ∀ p ∈ [pEn, pFr], (p.freq.map Prod.fst).Nodup) ∧
    fEnFr.langlist = [pEn, pFr].map LangProfile.name ∧
    (∃ d v, pFr.n_words["ab".length - 1]? = some d ∧
      mapLookup fEnFr.word_lang_prob_map "ab" = some v ∧
      v[1]? = some (((2 : Nat) : ℚ) / (d : ℚ))) :=
  ⟨⟨rfl, by decide⟩,
   (@load_json_profile_index_assignment [pEn, pFr] fEnFr rfl (by decide)).1,
   (@load_json_profile_index_assignment [pEn, pFr] fEnFr rfl (by decide)).2 1
     (by decide) "ab" 2 (by decide) (by decide) (by decide)⟩

/-- C7 counterexample: with the current time Dec 01 2026 12:00, the options
Jan 20 2026 and Nov 20 2025 both lie in the past, Jan 20 2026 is
chronologically the largest, yet `get_best_timehash` returns Nov 20 2025:
comparing `%m%d%Y%H%M` strings as integers puts the month first, so the
integer order it maximises over is not chronological order. -/
theorem get_best_timehash_not_chronological :
    get_best_timehash (tsEncode tsDec2026) [tsEncode tsJan2026, tsEncode tsNov2025]
        = Except.ok (tsEncode tsNov2025) ∧
    tsEncode tsJan2026 ≤ tsEncode tsDec2026 ∧
    tsChrono tsNov2025 < tsChrono tsJan2026 ∧
    tsChrono tsJan2026 ≤ tsChrono tsDec2026 :=
  ⟨rfl, by decide, by decide, by decide⟩

/-- C7 (amended): `get_best_timehash` returns the option that is largest in
the `%m%d%Y%H%M` integer encoding among those not exceeding the current
time's encoding (this agrees with chronological order only between
timestamps of the same year), and fails — with a plain Python `NameError`,
there is no dedicated exception type — exactly when every option's encoding
exceeds the current encoding. -/
theorem get_best_timehash_max_encoding (current_datetime : Nat) (options : List Nat) :
    (∀ t, get_best_timehash current_datetime options = Except.ok t →
        t ∈ options ∧ t ≤ current_datetime ∧
        ∀ o ∈ options, o ≤ current_datetime → o ≤ t) ∧
    (get_best_timehash current_datetime options = Except.error PyError.nameError ↔
        ∀ o ∈ options, current_datetime < o) := by
  constructor
  · intro t h
    unfold get_best_timehash at h
    obtain ⟨hm, hle⟩ := findTimehash_ok h
    exact ⟨mem_sortDesc.1 hm, hle,
      fun o ho hoc => findTimehash_max (sortDesc_pairwise options) h o (mem_sortDesc.2 ho) hoc⟩
  · unfold get_best_timehash
    rw [findTimehash_error]
    constructor
    · intro h o ho
      exact h o (mem_sortDesc.2 ho)
    · intro h o ho
      exact h o (mem_sortDesc.1 ho)

/-- C7 witness: at current time 20 the qualifying maximum of `[10, 30]` is
10, and at current time 5 no option qualifies and the call fails. -/
theorem get_best_timehash_max_encoding_witness :
    ((10 : Nat) ∈ [10, 30] ∧ (10 : Nat) ≤ 20 ∧
      ∀ o ∈ [10, 30], o ≤ 20 → o ≤ 10) ∧
    get_best_timehash 5 [10, 30] = Except.error PyError.nameError :=
  ⟨(get_best_timehash_max_encoding 20 [10, 30]).1 10 rfl,
   (get_best_timehash_max_encoding 5 [10, 30]).2.mpr (by decide)⟩

/-- C8: `_create_detector` refuses to construct a `Detector` and raises
`NeedLoadProfileError` exactly when `langlist` is empty; with at least one
language loaded it returns a `Detector` without raising. -/
theorem create_detector_requires_profiles (f : DetectorFactory) :
    (f.langlist = [] →
      _create_detector f
        = Except.error (PyError.langDetect ErrorCode.NeedLoadProfileError)) ∧
    (f.langlist ≠ [] → ∃ d, _create_detector f = Except.ok d) := by
  constructor
  · intro h
    simp [_create_detector, h]
  · intro h
    exact ⟨⟨f⟩, by simp [_create_detector, h]⟩

/-- C8 witness: the fresh factory refuses; a one-language factory constructs. -/
theorem create_detector_requires_profiles_witness :
    _create_detector DetectorFactory.mkEmpty
        = Except.error (PyError.langDetect ErrorCode.NeedLoadProfileError) ∧
    ∃ d, _create_detector ⟨[], ["en"]⟩ = Except.ok d :=
  ⟨(create_detector_requires_profiles DetectorFactory.mkEmpty).1 rfl,
   (create_detector_requires_profiles ⟨[], ["en"]⟩).2 (by decide)⟩

/-- C9: when every n-gram length in {1,2,3} that occurs among the profile's
frequency keys has a positive total in `n_words`, `add_profile` never raises
`ZeroDivisionError`: the division-error branch is unreachable. -/
theorem add_profile_no_division_by_zero {p : LangProfile}
    (hpos : ∀ q ∈ p.freq, 1 ≤ (Prod.fst q).length → (Prod.fst q).length ≤ 3 →
      0 < (p.n_words[(Prod.fst q).length - 1]?).getD 0)
    (f : DetectorFactory) (index langsize : Nat) :
    (add_profile f p index langsize).2 ≠ some PyError.zeroDivision := by
  by_cases hd : p.name ∈ f.langlist
  · rw [add_profile_dup hd]
    simp
  · rw [add_profile_eq hd]
    have hpos' : ∀ w c, (w, c) ∈ p.freq → 1 ≤ w.length → w.length ≤ 3 →
        ∃ d, p.n_words[w.length - 1]? = some d ∧ 0 < d := by
      intro w c hm h1 h3
      have hq := hpos (w, c) hm h1 h3
      cases hg : p.n_words[w.length - 1]? with
      | none =>
        rw [hg] at hq
        simp at hq
      | some d =>
        rw [hg] at hq
        exact ⟨d, rfl, by simpa using hq⟩
    exact addWords_ne_zeroDiv hpos' index langsize f.word_lang_prob_map

/-- C9 witness: `pEn` has positive totals for lengths 1 and 2 (its only key
lengths), so adding it raises no `ZeroDivisionError`. -/
theorem add_profile_no_division_by_zero_witness :
    (∀ q ∈ pEn.freq, 1 ≤ (Prod.fst q).length → (Prod.fst q).length ≤ 3 →
      0 < (pEn.n_words[(Prod.fst q).length - 1]?).getD 0) ∧
    (add_profile DetectorFactory.mkEmpty pEn 0 2).2 ≠ some PyError.zeroDivision :=
  ⟨by decide,
   add_profile_no_division_by_zero (by decide) DetectorFactory.mkEmpty 0 2⟩

/-- C10: `get_lang_list` returns a fresh copy of the factory's language
list: the returned object's contents equal the factory's `langlist`, the
returned reference is distinct from the factory's, and mutating the returned
object leaves the factory's list unchanged. -/
theorem get_lang_list_returns_fresh_copy {h : PyListHeap} {langlistRef : Nat}
    (href : langlistRef < h.size) :
    (get_lang_list h langlistRef).2.store (get_lang_list h langlistRef).1
        = h.store langlistRef ∧
    (get_lang_list h langlistRef).1 ≠ langlistRef ∧
    ∀ v, ((get_lang_list h langlistRef).2.write
        (get_lang_list h langlistRef).1 v).store langlistRef
      = h.store langlistRef := by
  have hne : langlistRef ≠ h.size := Nat.ne_of_lt href
  refine ⟨?_, ?_, ?_⟩
  · simp [get_lang_list, PyListHeap.alloc]
  · intro hc
    exact hne hc.symm
  · intro v
    simp [get_lang_list, PyListHeap.alloc, PyListHeap.write, hne]

/-- C10 witness: on a one-object heap the copy is allocated at a new
reference and overwriting it leaves object 0 intact. -/
theorem get_lang_list_returns_fresh_copy_witness :
    0 < hExample.size ∧
    ((get_lang_list hExample 0).2.store (get_lang_list hExample 0).1
        = hExample.store 0 ∧
     (get_lang_list hExample 0).1 ≠ 0 ∧
     ∀ v, ((get_lang_list hExample 0).2.write (get_lang_list hExample 0).1 v).store 0
        = hExample.store 0) :=
  ⟨by decide, @get_lang_list_returns_fresh_copy hExample 0 (by decide)⟩
